import Mathlib

/-!
Verification of the task-list state machine in `src/ToDo/App.tsx`.

The store keeps an ordered list of `Todo` records and mutates it through
`addTodo`, `toggleTodo`, `deleteTodo`, `saveEdit` and `clearCompleted`;
two pure derivations (`filtered` and `remaining` / `completionPct`) are
recomputed from the list.  Each definition below is a direct translation
of the corresponding function in `App.tsx`.

Modelling notes.
* The source allocates ids as `Date.now().toString()` and compares them
  with string equality.  Decimal printing is injective on naturals, so
  string equality of the printed ids coincides with equality of the
  underlying millisecond counts; we therefore carry the id as the `Nat`
  returned by `Date.now()`.  `Date.now()` itself is an external input and
  is passed to `addTodo` as the explicit argument `now` (the source reads
  it twice, for `id` and `createdAt`, in the same statement; no claim
  separates the two reads, so one `now` serves both).
* The JavaScript string builtins used by the source are modelled over the
  character sequence of the string: `jsTrim` for `trim()`, `jsToLower`
  for `toLowerCase()` (ASCII case mapping), `includesList` for
  `includes()` (substring containment).  All are structurally recursive,
  so concrete runs of the store evaluate inside the logic.
* `if (!text) return` on the trimmed text is the test `text = ""`.
* JavaScript number division in `completionPct` is modelled over `ℚ`.
-/

namespace TodoApp

/-- Source `type Priority = 'high' | 'medium' | 'low'` (App.tsx line 19). -/
inductive Priority where
  | high
  | medium
  | low
deriving DecidableEq, Repr

/-- Source `type Filter = 'all' | 'active' | 'completed'` (App.tsx line 29). -/
inductive Filter where
  | all
  | active
  | completed
deriving DecidableEq, Repr

/-- Source `type Todo` (App.tsx lines 21-27). -/
structure Todo where
  id : Nat
  text : String
  completed : Bool
  priority : Priority
  createdAt : Nat
deriving DecidableEq, Repr

/-- Model of JavaScript `String.prototype.trim`: drop whitespace
characters from both ends of the character sequence. -/
def trimList (cs : List Char) : List Char :=
  ((cs.dropWhile Char.isWhitespace).reverse.dropWhile Char.isWhitespace).reverse

/-- Model of JavaScript `String.prototype.trim` on `String`. -/
def jsTrim (s : String) : String :=
  ⟨trimList s.data⟩

/-- Model of JavaScript `String.prototype.toLowerCase` (ASCII case map,
character by character). -/
def jsToLower (s : String) : String :=
  ⟨s.data.map Char.toLower⟩

/-- Model of JavaScript `String.prototype.includes`: does `needle` occur
as a contiguous run inside `hay`? -/
def includesList (needle : List Char) : List Char → Bool
  | [] => needle.isEmpty
  | c :: rest => needle.isPrefixOf (c :: rest) || includesList needle rest

/-- Source `addTodo` (App.tsx lines 183-198): trim the input; if the
trimmed text is empty do nothing, otherwise prepend a new record whose
`id` and `createdAt` are the current `Date.now()` value `now`. -/
def addTodo (now : Nat) (input : String) (priority : Priority)
    (todos : List Todo) : List Todo :=
  let text := jsTrim input
  if text = "" then todos
  else
    { id := now, text := text, completed := false,
      priority := priority, createdAt := now } :: todos

/-- Source `toggleTodo` (App.tsx lines 200-204): map over the list,
inverting `completed` on the entries whose id matches. -/
def toggleTodo (id : Nat) (todos : List Todo) : List Todo :=
  todos.map fun t => if t.id = id then { t with completed := !t.completed } else t

/-- Source `deleteTodo` (App.tsx lines 206-208):
`prev.filter(t => t.id !== id)`. -/
def deleteTodo (id : Nat) (todos : List Todo) : List Todo :=
  todos.filter fun t => !(t.id == id)

/-- Store update of source `clearCompleted` (App.tsx lines 210-219):
`prev.filter(t => !t.completed)`; the surrounding confirmation dialog is
a presentation concern. -/
def clearCompleted (todos : List Todo) : List Todo :=
  todos.filter fun t => !t.completed

/-- Source `saveEdit` (App.tsx lines 226-236): when an edit is open
(`editingId` non-null), trim the working text; a non-empty result
replaces the `text` field of the task whose id matches, an empty result
is discarded. -/
def saveEdit (editingId : Option Nat) (editText : String)
    (todos : List Todo) : List Todo :=
  match editingId with
  | none => todos
  | some eid =>
    let text := jsTrim editText
    if text = "" then todos
    else todos.map fun t => if t.id = eid then { t with text := text } else t

/-- Source nested ternary `matchesFilter` inside `filtered`
(App.tsx lines 241-246). -/
def matchesFilter (filter : Filter) (t : Todo) : Bool :=
  if filter = .active then !t.completed
  else if filter = .completed then t.completed
  else true

/-- Source `matchesSearch` test inside `filtered` (App.tsx lines
247-248): `search === '' || t.text.toLowerCase().includes(search.toLowerCase())`. -/
def matchesSearch (search : String) (t : Todo) : Bool :=
  search == "" ||
    includesList (jsToLower search).data (jsToLower t.text).data

/-- Source `filtered` (App.tsx lines 240-250), the derived view. -/
def filtered (todos : List Todo) (filter : Filter) (search : String) :
    List Todo :=
  todos.filter fun t => matchesFilter filter t && matchesSearch search t

/-- Source `remaining` (App.tsx line 252):
`todos.filter(t => !t.completed).length`. -/
def remaining (todos : List Todo) : Nat :=
  (todos.filter fun t => !t.completed).length

/-- Source `completionPct` (App.tsx lines 253-254):
`todos.length > 0 ? (todos.length - remaining) / todos.length : 0`. -/
def completionPct (todos : List Todo) : ℚ :=
  if todos.length > 0 then
    ((todos.length : ℚ) - (remaining todos : ℚ)) / (todos.length : ℚ)
  else 0

/-- One user-triggered store mutation, with the `Date.now()` reading of
an `add` recorded as data. -/
inductive Op where
  | add (now : Nat) (input : String) (priority : Priority)
  | toggle (id : Nat)
  | delete (id : Nat)
  | edit (id : Nat) (newText : String)
  | clear
deriving Repr

/-- Apply one mutation to the list, exactly as the corresponding handler
in App.tsx does. -/
def applyOp (todos : List Todo) : Op → List Todo
  | .add now input priority => addTodo now input priority todos
  | .toggle id => toggleTodo id todos
  | .delete id => deleteTodo id todos
  | .edit id newText => saveEdit (some id) newText todos
  | .clear => clearCompleted todos

/-- Run a sequence of mutations from the initial empty store
(`useState<Todo[]>([])`, App.tsx line 171). -/
def run (ops : List Op) : List Todo :=
  ops.foldl applyOp []

/-- Spec wording of the filter stage: keep the task if the filter is
`all`, or it is `active` and the task is not completed, or it is
`completed` and the task is completed. -/
def passesFilterSpec (f : Filter) (t : Todo) : Prop :=
  f = .all ∨ (f = .active ∧ t.completed = false) ∨ (f = .completed ∧ t.completed = true)

/-- Spec wording of the search stage: keep the task if the query is empty
or the task text, case-folded, contains the query, case-folded, as a
substring. -/
def passesSearchSpec (s : String) (t : Todo) : Prop :=
  s = "" ∨ (jsToLower s).data <:+: (jsToLower t.text).data

instance (f : Filter) (t : Todo) : Decidable (passesFilterSpec f t) := by
  unfold passesFilterSpec
  infer_instance

instance (s : String) (t : Todo) : Decidable (passesSearchSpec s t) := by
  unfold passesSearchSpec
  infer_instance

/-- Ids strictly below a clock bound. -/
def idsBelow (c : Nat) (l : List Todo) : Prop :=
  ∀ i ∈ l.map Todo.id, i < c

/-- The operation sequence reads a clock that never repeats a value:
every `add` happens at or after the bound and advances it past its own
timestamp.  `Date.now()` behaves this way exactly when no two adds fall
into the same millisecond. -/
inductive ClockOk : Nat → List Op → Prop where
  | nil (c : Nat) : ClockOk c []
  | add (c now : Nat) (input : String) (p : Priority) (ops : List Op) :
      c ≤ now → ClockOk (now + 1) ops → ClockOk c (Op.add now input p :: ops)
  | toggle (c id : Nat) (ops : List Op) :
      ClockOk c ops → ClockOk c (Op.toggle id :: ops)
  | delete (c id : Nat) (ops : List Op) :
      ClockOk c ops → ClockOk c (Op.delete id :: ops)
  | edit (c id : Nat) (s : String) (ops : List Op) :
      ClockOk c ops → ClockOk c (Op.edit id s :: ops)
  | clear (c : Nat) (ops : List Op) :
      ClockOk c ops → ClockOk c (Op.clear :: ops)

/-- The executable substring test agrees with `List.IsInfix`. -/
theorem includesList_iff (needle hay : List Char) :
    includesList needle hay = true ↔ needle <:+: hay := by
  induction hay with
  | nil => simp [includesList, List.isEmpty_iff, List.infix_nil]
  | cons c rest ih =>
    simp [includesList, ih, List.infix_cons_iff]

/-- Updating by id is the identity when no element carries the id. -/
theorem map_update_not_mem (g : Todo → Todo) (id : Nat) (l : List Todo)
    (h : ∀ t ∈ l, t.id ≠ id) :
    (l.map fun t => if t.id = id then g t else t) = l := by
  induction l with
  | nil => rfl
  | cons a l ih =>
    have ha : a.id ≠ id := h a (List.mem_cons_self a l)
    simp only [List.map_cons, if_neg ha]
    rw [ih fun t ht => h t (List.mem_cons_of_mem a ht)]

/-- Removing by id is the identity when no element carries the id. -/
theorem filter_ne_not_mem (id : Nat) (l : List Todo)
    (h : ∀ t ∈ l, t.id ≠ id) :
    (l.filter fun t => !(t.id == id)) = l := by
  induction l with
  | nil => rfl
  | cons a l ih =>
    have ha : a.id ≠ id := h a (List.mem_cons_self a l)
    simp only [List.filter_cons]
    rw [if_pos (by simp [ha]), ih fun t ht => h t (List.mem_cons_of_mem a ht)]

/-- In a list with pairwise distinct ids, the id of a distinguished
element occurs in neither of the surrounding segments. -/
theorem nodup_ids_split (l₁ l₂ : List Todo) (t : Todo)
    (h : ((l₁ ++ t :: l₂).map Todo.id).Nodup) :
    (∀ u ∈ l₁, u.id ≠ t.id) ∧ (∀ u ∈ l₂, u.id ≠ t.id) := by
  rw [List.map_append, List.map_cons, List.nodup_append] at h
  obtain ⟨h₁, h₂, hdisj⟩ := h
  refine ⟨fun u hu heq => ?_, fun u hu heq => ?_⟩
  · exact hdisj (List.mem_map_of_mem Todo.id hu) (by simp [heq])
  · exact (List.nodup_cons.1 h₂).1 (by rw [← heq]; exact List.mem_map_of_mem Todo.id hu)

/-- A boolean agreeing with a decidable proposition is its `decide`. -/
theorem eq_decide_of_iff {b : Bool} {p : Prop} [Decidable p] (h : b = true ↔ p) :
    b = decide p := by
  by_cases hp : p
  · rw [h.2 hp]
    simp [hp]
  · cases hb : b
    · simp [hp]
    · exact absurd (h.1 hb) hp

/-- Toggling never changes the ids. -/
theorem ids_toggleTodo (id : Nat) (l : List Todo) :
    (toggleTodo id l).map Todo.id = l.map Todo.id := by
  unfold toggleTodo
  rw [List.map_map]
  apply List.map_congr_left
  intro t _
  by_cases h : t.id = id <;> simp [h]

/-- Committing an edit never changes the ids. -/
theorem ids_saveEdit (id : Nat) (s : String) (l : List Todo) :
    (saveEdit (some id) s l).map Todo.id = l.map Todo.id := by
  simp only [saveEdit]
  by_cases h : jsTrim s = ""
  · rw [if_pos h]
  · rw [if_neg h, List.map_map]
    apply List.map_congr_left
    intro t _
    by_cases ht : t.id = id <;> simp [ht]

/-- Invariant step: from any list whose ids are distinct and below the
clock bound, a clock-respecting operation sequence keeps the ids
distinct. -/
theorem foldl_nodup (ops : List Op) :
    ∀ (c : Nat) (l : List Todo), ClockOk c ops → idsBelow c l →
      (l.map Todo.id).Nodup → ((ops.foldl applyOp l).map Todo.id).Nodup := by
  induction ops with
  | nil => exact fun c l _ _ h => h
  | cons op ops ih =>
    intro c l hok hbelow hnodup
    cases hok with
    | add c now input p ops hle hok' =>
      simp only [List.foldl_cons, applyOp]
      have hfresh : now ∉ l.map Todo.id := fun hmem =>
        Nat.lt_irrefl now (Nat.lt_of_lt_of_le (hbelow now hmem) hle)
      refine ih (now + 1) _ hok' ?_ ?_
      · intro i hi
        unfold addTodo at hi
        by_cases h : jsTrim input = ""
        · rw [if_pos h] at hi
          exact Nat.lt_succ_of_lt (Nat.lt_of_lt_of_le (hbelow i hi) hle)
        · rw [if_neg h] at hi
          simp only [List.map_cons] at hi
          rcases List.mem_cons.1 hi with h' | h'
          · simp [h']
          · exact Nat.lt_succ_of_lt (Nat.lt_of_lt_of_le (hbelow i h') hle)
      · unfold addTodo
        by_cases h : jsTrim input = ""
        · rw [if_pos h]
          exact hnodup
        · rw [if_neg h]
          simp only [List.map_cons]
          exact List.nodup_cons.2 ⟨hfresh, hnodup⟩
    | toggle c id ops hok' =>
      simp only [List.foldl_cons, applyOp]
      refine ih c _ hok' ?_ ?_
      · intro i hi
        rw [ids_toggleTodo] at hi
        exact hbelow i hi
      · rw [ids_toggleTodo]
        exact hnodup
    | delete c id ops hok' =>
      simp only [List.foldl_cons, applyOp]
      have hsub : List.Sublist ((deleteTodo id l).map Todo.id) (l.map Todo.id) :=
        (List.filter_sublist l).map Todo.id
      refine ih c _ hok' (fun i hi => hbelow i (hsub.subset hi)) (hnodup.sublist hsub)
    | edit c id s ops hok' =>
      simp only [List.foldl_cons, applyOp]
      refine ih c _ hok' ?_ ?_
      · intro i hi
        rw [ids_saveEdit] at hi
        exact hbelow i hi
      · rw [ids_saveEdit]
        exact hnodup
    | clear c ops hok' =>
      simp only [List.foldl_cons, applyOp]
      have hsub : List.Sublist ((clearCompleted l).map Todo.id) (l.map Todo.id) :=
        (List.filter_sublist l).map Todo.id
      refine ih c _ hok' (fun i hi => hbelow i (hsub.subset hi)) (hnodup.sublist hsub)

/-- Under a never-repeating clock the id-uniqueness invariant does hold
in every reachable state: the collision in `run_duplicate_ids` needs two
adds inside one millisecond. -/
theorem run_ids_nodup (ops : List Op) (h : ClockOk 0 ops) :
    ((run ops).map Todo.id).Nodup :=
  foldl_nodup ops 0 [] h (fun i hi => by simp at hi) (by simp)

/-- C1. The claimed invariant fails on the code: two adds that read the
same `Date.now()` millisecond (here 41) produce a reachable state whose
two tasks share the id 41, so the ids are not pairwise distinct and the
id 41 is assigned twice. -/
theorem run_duplicate_ids :
    (run [Op.add 41 "buy milk" Priority.low, Op.add 41 "walk dog" Priority.high]).map Todo.id
        = [41, 41] ∧
    ¬ ((run [Op.add 41 "buy milk" Priority.low,
             Op.add 41 "walk dog" Priority.high]).map Todo.id).Nodup := by
  constructor
  · decide
  · decide

/-- C2, counterexample to freshness as stated: adding at a `Date.now()`
value (5) equal to the id of a task already in the list produces a first
element whose id is not fresh — it collides with the existing task. -/
theorem addTodo_stale_id :
    addTodo 5 "walk dog" Priority.medium [⟨5, "buy milk", false, .low, 5⟩] =
      [⟨5, "walk dog", false, .medium, 5⟩, ⟨5, "buy milk", false, .low, 5⟩] ∧
    ¬ ((addTodo 5 "walk dog" Priority.medium
          [⟨5, "buy milk", false, .low, 5⟩]).map Todo.id).Nodup := by
  constructor
  · decide
  · decide

/-- C2, amended. For every list, raw text and priority: when the trimmed
text is empty the add is a no-op; otherwise exactly one new task — text
the trimmed input, not completed, the given priority, id and `createdAt`
the `Date.now()` reading — is prepended ahead of the unchanged original
tasks; and the new id is fresh (uniqueness of ids is preserved) provided
that reading differs from every id already in the list. -/
theorem addTodo_spec (now : Nat) (input : String) (p : Priority) (l : List Todo) :
    (jsTrim input = "" → addTodo now input p l = l) ∧
    (jsTrim input ≠ "" →
      addTodo now input p l =
        { id := now, text := jsTrim input, completed := false,
          priority := p, createdAt := now } :: l) ∧
    (now ∉ l.map Todo.id → (l.map Todo.id).Nodup →
      ((addTodo now input p l).map Todo.id).Nodup) := by
  refine ⟨fun h => ?_, fun h => ?_, fun hfresh hnodup => ?_⟩
  · unfold addTodo
    simp [h]
  · unfold addTodo
    simp [h]
  · unfold addTodo
    by_cases h : jsTrim input = ""
    · simp [h, hnodup]
    · simp [h, hnodup, hfresh]

/-- C2 witness: a concrete add trims `" milk "`, prepends the new task
without touching the old one, keeps the ids distinct, and a whitespace
add is a no-op. -/
theorem addTodo_spec_witness :
    addTodo 7 " milk " Priority.high [⟨3, "bread", false, .low, 3⟩] =
      { id := 7, text := "milk", completed := false,
        priority := .high, createdAt := 7 } :: [⟨3, "bread", false, .low, 3⟩] ∧
    ((addTodo 7 " milk " Priority.high [⟨3, "bread", false, .low, 3⟩]).map Todo.id).Nodup ∧
    addTodo 9 "   " Priority.low [⟨3, "bread", false, .low, 3⟩] = [⟨3, "bread", false, .low, 3⟩] :=
  ⟨(addTodo_spec 7 " milk " .high _).2.1 (by decide),
   (addTodo_spec 7 " milk " .high _).2.2 (by decide) (by decide),
   (addTodo_spec 9 "   " .low _).1 (by decide)⟩

/-- C3. The derived view is exactly the subsequence of tasks that pass
both the filter stage and the search stage as the spec words them, in
the original order: `filtered` equals a single order-preserving
`List.filter` by the conjunction of the two spec predicates. -/
theorem filtered_eq_spec (l : List Todo) (f : Filter) (s : String) :
    filtered l f s =
      l.filter fun t => decide (passesFilterSpec f t ∧ passesSearchSpec s t) := by
  unfold filtered
  apply List.filter_congr
  intro t _
  have hfilter : matchesFilter f t = decide (passesFilterSpec f t) := by
    apply eq_decide_of_iff
    unfold matchesFilter passesFilterSpec
    cases f <;> cases hc : t.completed <;> simp [hc]
  have hsearch : matchesSearch s t = decide (passesSearchSpec s t) := by
    apply eq_decide_of_iff
    unfold matchesSearch passesSearchSpec
    simp [includesList_iff]
  rw [hfilter, hsearch, ← Bool.decide_and]

/-- C4. `remaining` counts the tasks with `completed = false`; when the
list is non-empty `completionPct` is `(total - remaining) / total` over
`ℚ`; the empty list yields remaining 0 and completion fraction 0 (the
guard takes the `else 0` branch, no division happens). -/
theorem progress_spec (l : List Todo) :
    remaining l = l.countP (fun t => t.completed == false) ∧
    (0 < l.length →
      completionPct l = ((l.length : ℚ) - (remaining l : ℚ)) / (l.length : ℚ)) ∧
    (l = [] → remaining l = 0 ∧ completionPct l = 0) := by
  refine ⟨?_, fun h => ?_, fun h => ?_⟩
  · rw [List.countP_eq_length_filter]
    unfold remaining
    congr 1
    apply List.filter_congr
    intro t _
    cases hc : t.completed <;> simp [hc]
  · unfold completionPct
    rw [if_pos h]
  · subst h
    exact ⟨rfl, rfl⟩

/-- C4 witness: one completed task out of two gives fraction one half,
and the empty list gives remaining 0 and fraction 0. -/
theorem progress_spec_witness :
    completionPct [⟨1, "a", true, .low, 0⟩, ⟨2, "b", false, .low, 0⟩] = ((2 : ℚ) - 1) / 2 ∧
    remaining ([] : List Todo) = 0 ∧ completionPct ([] : List Todo) = 0 := by
  refine ⟨?_, (progress_spec []).2.2 rfl⟩
  have h := (progress_spec [⟨1, "a", true, .low, 0⟩, ⟨2, "b", false, .low, 0⟩]).2.1 (by decide)
  rw [show remaining ([⟨1, "a", true, .low, 0⟩, ⟨2, "b", false, .low, 0⟩] : List Todo) = 1
    from by decide] at h
  simpa using h

/-- C5. On a list with pairwise distinct ids, toggling an absent id is a
no-op, and toggling a present id inverts exactly that element's
`completed` flag, leaving its other fields, every other task and the
order unchanged. -/
theorem toggleTodo_spec (l : List Todo) (id : Nat)
    (hnodup : (l.map Todo.id).Nodup) :
    ((∀ t ∈ l, t.id ≠ id) → toggleTodo id l = l) ∧
    (∀ l₁ t l₂, l = l₁ ++ t :: l₂ → t.id = id →
      toggleTodo id l = l₁ ++ { t with completed := !t.completed } :: l₂) := by
  constructor
  · exact map_update_not_mem _ id l
  · rintro l₁ t l₂ rfl ht
    obtain ⟨h₁, h₂⟩ := nodup_ids_split l₁ l₂ t hnodup
    unfold toggleTodo
    rw [List.map_append, List.map_cons, if_pos ht,
        map_update_not_mem _ id l₁ (fun u hu => ht ▸ h₁ u hu),
        map_update_not_mem _ id l₂ (fun u hu => ht ▸ h₂ u hu)]

/-- C5 witness: a concrete toggle of a present id flips exactly that
task, and a toggle of an absent id changes nothing. -/
theorem toggleTodo_spec_witness :
    toggleTodo 1 [⟨1, "alpha", false, .low, 0⟩, ⟨2, "beta", false, .low, 0⟩] =
      [⟨1, "alpha", true, .low, 0⟩, ⟨2, "beta", false, .low, 0⟩] ∧
    toggleTodo 3 [⟨1, "alpha", false, .low, 0⟩, ⟨2, "beta", false, .low, 0⟩] =
      [⟨1, "alpha", false, .low, 0⟩, ⟨2, "beta", false, .low, 0⟩] := by
  constructor
  · have h := (toggleTodo_spec [⟨1, "alpha", false, .low, 0⟩, ⟨2, "beta", false, .low, 0⟩] 1
      (by decide)).2 [] ⟨1, "alpha", false, .low, 0⟩ [⟨2, "beta", false, .low, 0⟩] rfl rfl
    simpa using h
  · exact (toggleTodo_spec [⟨1, "alpha", false, .low, 0⟩, ⟨2, "beta", false, .low, 0⟩] 3
      (by decide)).1 (by decide)

/-- C6. On a list with pairwise distinct ids, deleting an absent id is a
no-op, deleting a present id removes exactly that task and preserves the
order of the rest, and a second identical delete changes nothing
(idempotence). -/
theorem deleteTodo_spec (l : List Todo) (id : Nat)
    (hnodup : (l.map Todo.id).Nodup) :
    ((∀ t ∈ l, t.id ≠ id) → deleteTodo id l = l) ∧
    (∀ l₁ t l₂, l = l₁ ++ t :: l₂ → t.id = id → deleteTodo id l = l₁ ++ l₂) ∧
    deleteTodo id (deleteTodo id l) = deleteTodo id l := by
  refine ⟨filter_ne_not_mem id l, ?_, ?_⟩
  · rintro l₁ t l₂ rfl ht
    obtain ⟨h₁, h₂⟩ := nodup_ids_split l₁ l₂ t hnodup
    unfold deleteTodo
    rw [List.filter_append, List.filter_cons, if_neg (by simp [ht]),
        filter_ne_not_mem id l₁ (fun u hu => ht ▸ h₁ u hu),
        filter_ne_not_mem id l₂ (fun u hu => ht ▸ h₂ u hu)]
  · unfold deleteTodo
    rw [List.filter_filter]
    apply List.filter_congr
    intro t _
    cases h : (t.id == id) <;> simp [h]

/-- C6 witness: a concrete delete removes exactly the matching middle
task, and deleting an absent id changes nothing. -/
theorem deleteTodo_spec_witness :
    deleteTodo 2 [⟨1, "one", false, .low, 0⟩, ⟨2, "two", true, .high, 0⟩,
        ⟨3, "three", false, .low, 0⟩] =
      [⟨1, "one", false, .low, 0⟩, ⟨3, "three", false, .low, 0⟩] ∧
    deleteTodo 9 [⟨1, "one", false, .low, 0⟩] = [⟨1, "one", false, .low, 0⟩] := by
  constructor
  · have h := (deleteTodo_spec [⟨1, "one", false, .low, 0⟩, ⟨2, "two", true, .high, 0⟩,
      ⟨3, "three", false, .low, 0⟩] 2 (by decide)).2.1 [⟨1, "one", false, .low, 0⟩]
      ⟨2, "two", true, .high, 0⟩ [⟨3, "three", false, .low, 0⟩] rfl rfl
    simpa using h
  · exact (deleteTodo_spec [⟨1, "one", false, .low, 0⟩] 9 (by decide)).1 (by decide)

/-- C7. On a list with pairwise distinct ids, committing an edit whose
trimmed text is empty leaves the whole list — in particular the edited
task — unchanged; a non-empty trimmed text replaces only the `text`
field of the task with that id, keeping its other fields, its position
and all other tasks. -/
theorem saveEdit_spec (l : List Todo) (id : Nat) (newText : String)
    (hnodup : (l.map Todo.id).Nodup) :
    (jsTrim newText = "" → saveEdit (some id) newText l = l) ∧
    (jsTrim newText ≠ "" → (∀ t ∈ l, t.id ≠ id) → saveEdit (some id) newText l = l) ∧
    (jsTrim newText ≠ "" → ∀ l₁ t l₂, l = l₁ ++ t :: l₂ → t.id = id →
      saveEdit (some id) newText l = l₁ ++ { t with text := jsTrim newText } :: l₂) := by
  refine ⟨fun h => ?_, fun h hn => ?_, fun h => ?_⟩
  · simp only [saveEdit]
    rw [if_pos h]
  · simp only [saveEdit]
    rw [if_neg h]
    exact map_update_not_mem _ id l hn
  · rintro l₁ t l₂ rfl ht
    obtain ⟨h₁, h₂⟩ := nodup_ids_split l₁ l₂ t hnodup
    simp only [saveEdit]
    rw [if_neg h, List.map_append, List.map_cons, if_pos ht,
        map_update_not_mem _ id l₁ (fun u hu => ht ▸ h₁ u hu),
        map_update_not_mem _ id l₂ (fun u hu => ht ▸ h₂ u hu)]

/-- C7 witness: editing with `" hello "` rewrites only the text of the
matching task to `"hello"`, and editing with blanks changes nothing. -/
theorem saveEdit_spec_witness :
    saveEdit (some 1) " hello " [⟨1, "old", false, .low, 0⟩, ⟨2, "keep", true, .high, 0⟩] =
      [⟨1, "hello", false, .low, 0⟩, ⟨2, "keep", true, .high, 0⟩] ∧
    saveEdit (some 1) "   " [⟨1, "old", false, .low, 0⟩] = [⟨1, "old", false, .low, 0⟩] := by
  constructor
  · have h := (saveEdit_spec [⟨1, "old", false, .low, 0⟩, ⟨2, "keep", true, .high, 0⟩] 1 " hello "
      (by decide)).2.2 (by decide) [] ⟨1, "old", false, .low, 0⟩ [⟨2, "keep", true, .high, 0⟩]
      rfl rfl
    simpa using h
  · exact (saveEdit_spec [⟨1, "old", false, .low, 0⟩] 1 "   " (by decide)).1 (by decide)

/-- C8. Clearing completed tasks yields an order-preserving sublist in
which no completed task remains, every completed task is gone, and every
non-completed task survives with unchanged multiplicity. -/
theorem clearCompleted_spec (l : List Todo) :
    (clearCompleted l).Sublist l ∧
    (clearCompleted l).countP (fun t => t.completed) = 0 ∧
    (∀ t, t.completed = true → t ∉ clearCompleted l) ∧
    (∀ t, t.completed = false → (clearCompleted l).count t = l.count t) := by
  refine ⟨List.filter_sublist l, ?_, fun t ht => ?_, fun t ht => ?_⟩
  · unfold clearCompleted
    rw [List.countP_filter]
    simp
  · simp [clearCompleted, List.mem_filter, ht]
  · exact List.count_filter (by simp [ht])

/-- C8 witness: on a concrete two-task list the completed task is gone
and the open task keeps its multiplicity. -/
theorem clearCompleted_spec_witness :
    (⟨1, "done", true, .low, 0⟩ : Todo) ∉
      clearCompleted [⟨1, "done", true, .low, 0⟩, ⟨2, "open", false, .low, 0⟩] ∧
    (clearCompleted [⟨1, "done", true, .low, 0⟩, ⟨2, "open", false, .low, 0⟩]).count
        ⟨2, "open", false, .low, 0⟩ =
      ([⟨1, "done", true, .low, 0⟩, ⟨2, "open", false, .low, 0⟩] : List Todo).count
        ⟨2, "open", false, .low, 0⟩ :=
  ⟨(clearCompleted_spec _).2.2.1 _ (by decide),
   (clearCompleted_spec _).2.2.2 _ (by decide)⟩

/-- C9. Toggling the same id twice restores the original list exactly —
for every list and every id, present or absent. -/
theorem toggleTodo_invol (id : Nat) (l : List Todo) :
    toggleTodo id (toggleTodo id l) = l := by
  unfold toggleTodo
  rw [List.map_map]
  have h : ∀ t ∈ l,
      ((fun t => if t.id = id then { t with completed := !t.completed } else t) ∘
        fun t => if t.id = id then { t with completed := !t.completed } else t) t = t := by
    intro t _
    by_cases ht : t.id = id
    · simp [Function.comp, ht]
      rw [← ht]
    · simp [Function.comp, ht]
  rw [List.map_congr_left h, List.map_id']

/-- C10. The derived view with filter `all` and the empty query is the
identity on the task list. -/
theorem filtered_all_empty (l : List Todo) : filtered l .all "" = l := by
  unfold filtered
  rw [List.filter_eq_self]
  intro t _
  simp [matchesFilter, matchesSearch]

end TodoApp
